import Mathlib

/-!
Verification of the incremental cost-aggregation cache of
`claude-code-statusline` (Go package `internal/cost`), shallowly embedded
in Lean 4.  Monetary amounts and prices are modelled as exact rationals,
instants (`time.Time`) as integers, and the external collaborators of the
core (the JSON decoder `json.Unmarshal`, the RFC3339 parser `time.Parse`,
and local-date formatting of an instant) as explicit function parameters
bundled in an environment, as §6 of the specification prescribes
("consumed collaborator interfaces").
-/

attribute [local semireducible] Rat.add Rat.mul Rat.inv Rat.sub Rat.ofScientific

namespace Cost

/-- Mirrors `types.ModelPricing`: input/output token prices per million. -/
structure ModelPricing where
  Input : ℚ
  Output : ℚ
  deriving DecidableEq

/-- Mirrors `types.PricingData`: the model pricing table (the `Updated`
field is irrelevant to every claim and omitted; the Go map is modelled as
an association list). -/
structure PricingData where
  Models : List (String × ModelPricing)
  deriving DecidableEq

/-- Mirrors the anonymous `Usage` struct nested in `types.LogEntry`. -/
structure LogUsage where
  InputTokens : Nat
  OutputTokens : Nat
  CacheCreationInputTokens : Nat
  CacheReadInputTokens : Nat
  deriving DecidableEq

/-- Mirrors the anonymous `Message` struct nested in `types.LogEntry`. -/
structure LogMessage where
  Model : String
  Usage : LogUsage
  ID : String
  deriving DecidableEq

/-- Mirrors `types.LogEntry` (one decoded log line).  The Go field `Type`
is renamed `EntryType` because `Type` is a Lean keyword. -/
structure LogEntry where
  Timestamp : String
  EntryType : String
  Message : LogMessage
  RequestID : String
  deriving DecidableEq

/-- Mirrors `cost.FileProcessState`: per-file scan state.  `time.Time`
values are modelled as integers (e.g. nanoseconds since the epoch);
`ModTime.Equal` becomes integer equality. -/
structure FileProcessState where
  ModTime : Int
  Size : Int
  Offset : Int
  deriving DecidableEq

/-- Mirrors `cost.CostCache`: the persistent cache snapshot.  The three Go
maps are modelled as association lists (`DayCosts`, `FileState`) and a
membership list (`ProcessedMessages`, whose Go values are always `true`). -/
structure CostCache where
  DayCosts : List (String × ℚ)
  FileState : List (String × FileProcessState)
  ProcessedMessages : List String
  deriving DecidableEq

/-- Mirrors `types.TokenStats`. -/
structure TokenStats where
  DailyCost : ℚ
  WeeklyCost : ℚ
  MonthlyCost : ℚ
  deriving DecidableEq

/-- Lookup in a Go map modelled as an association list. -/
def lookupTable {α : Type} : List (String × α) → String → Option α
  | [], _ => none
  | (k, v) :: rest, key => if key = k then some v else lookupTable rest key

/-- Go map assignment `m[k] = v`: replace the binding if present,
otherwise append it. -/
def insertTable {α : Type} (k : String) (v : α) : List (String × α) → List (String × α)
  | [] => [(k, v)]
  | (k', v') :: rest => if k = k' then (k, v) :: rest else (k', v') :: insertTable k v rest

/-- Go map read with zero default: `m[k]` for a `map[string]float64`. -/
def getDay (dayCosts : List (String × ℚ)) (day : String) : ℚ :=
  match lookupTable dayCosts day with
  | some v => v
  | none => 0

/-- Go `m[day] += cost` on a `map[string]float64`: add to the existing
binding, creating it (at the added value) if absent. -/
def updAdd (k : String) (v : ℚ) : List (String × ℚ) → List (String × ℚ)
  | [] => [(k, v)]
  | (k', v') :: rest => if k = k' then (k', v' + v) :: rest else (k', v') :: updAdd k v rest

/-- The external collaborators consumed by the core (spec §6): the JSON
line decoder (`json.Unmarshal` into `types.LogEntry`, `none` for a
malformed line), the RFC3339 timestamp parser (`time.Parse`, returning an
instant), and the local-calendar-date formatter
(`ts.Local().Format("2006-01-02")`), together with the pricing table and
the retention cutoff threaded through `GetTokenStats`. -/
structure Env where
  decode : List Char → Option LogEntry
  parseTime : String → Option Int
  localDay : Int → String
  pricing : PricingData
  monthlyCutoff : Int

/-- Mirrors `cost.stripVersion`'s use of `strings.Split(model, "-")`:
split on every hyphen, keeping empty segments. -/
def splitDash : List Char → List (List Char)
  | [] => [[]]
  | c :: rest =>
    match splitDash rest with
    | [] => [[c]]
    | h :: t => if c = '-' then [] :: h :: t else (c :: h) :: t

/-- Mirrors `strings.Join(parts, "-")`. -/
def joinDash : List (List Char) → List Char
  | [] => []
  | [p] => p
  | p :: rest => p ++ '-' :: joinDash rest

/-- The Go loop body's keep-condition in `stripVersion`: a segment is
dropped when nonempty and starting with an ASCII digit. -/
def keepPart : List Char → Bool
  | [] => true
  | c :: _ => ¬ ('0' ≤ c ∧ c ≤ '9')

/-- Mirrors `cost.stripVersion`: remove hyphen-delimited segments that
start with a digit and re-join with hyphens. -/
def stripVersion (model : String) : String :=
  (joinDash ((splitDash model.toList).filter keepPart)).asString

/-- Does this suffix start with the three characters "-20"?  Helper for
`strings.LastIndex(model, "-20")`. -/
def startsDash20 : List Char → Bool
  | '-' :: '2' :: '0' :: _ => true
  | _ => false

/-- Mirrors `strings.LastIndex(model, "-20")`: index of the last
occurrence of "-20", or `none` when absent (Go returns -1).  Model ids are
ASCII, so byte and character indices coincide. -/
def lastIndexDash20 : List Char → Option Nat
  | [] => none
  | c :: rest =>
    match lastIndexDash20 rest with
    | some i => some (i + 1)
    | none => if startsDash20 (c :: rest) then some 0 else none

/-- The `if idx := strings.LastIndex(model, "-20"); idx > 0` block of
`cost.getPricing`: try the model id with its date suffix stripped, then
that versioned id with its numeric segments stripped. -/
def dateSuffixLookup (model : String) (pricing : PricingData) : Option ModelPricing :=
  match lastIndexDash20 model.toList with
  | some idx =>
    if 0 < idx then
      let versionedModel := (model.toList.take idx).asString
      match lookupTable pricing.Models versionedModel with
      | some p => some p
      | none => lookupTable pricing.Models (stripVersion versionedModel)
    else none
  | none => none

/-- Mirrors `cost.getPricing`: pricing lookup with the fallback chain
exact match, date-suffix-stripped match, version-stripped match of that,
version-stripped match of the original, hard-coded default $3/$15. -/
def getPricing (model : String) (pricing : PricingData) : ModelPricing :=
  match lookupTable pricing.Models model with
  | some p => p
  | none =>
    match dateSuffixLookup model pricing with
    | some p => p
    | none =>
      match lookupTable pricing.Models (stripVersion model) with
      | some p => p
      | none => { Input := 3, Output := 15 }

/-- Mirrors `cost.calculateCost`: price an event's four token counts
under the resolved model price (float64 arithmetic modelled exactly over
the rationals). -/
def calculateCost (model : String) (inputTokens outputTokens cacheCreation cacheRead : Nat)
    (pricing : PricingData) : ℚ :=
  let p := getPricing model pricing
  (inputTokens : ℚ) / 1000000 * p.Input
    + (cacheCreation : ℚ) / 1000000 * p.Input * 1.25
    + (cacheRead : ℚ) / 1000000 * p.Input * 0.1
    + (outputTokens : ℚ) / 1000000 * p.Output

/-- Mirrors `cost.processLogEntry`: decode one raw line, apply the filter
chain (parse failure, timestamp cutoff, non-assistant role, empty or
already-seen dedup key, all-zero token counts) and fold the surviving
event's cost into the day bucket of its local calendar date. -/
def processLogEntry (env : Env) (line : List Char) (cache : CostCache) : CostCache :=
  match env.decode line with
  | none => cache
  | some entry =>
    match env.parseTime entry.Timestamp with
    | none => cache
    | some ts =>
      if ts < env.monthlyCutoff then cache
      else if entry.EntryType ≠ "assistant" then cache
      else
        let key := entry.Message.ID ++ ":" ++ entry.RequestID
        if key = ":" ∨ cache.ProcessedMessages.contains key then cache
        else
          let cache' := { cache with ProcessedMessages := key :: cache.ProcessedMessages }
          let inputTokens := entry.Message.Usage.InputTokens
          let outputTokens := entry.Message.Usage.OutputTokens
          let cacheCreation := entry.Message.Usage.CacheCreationInputTokens
          let cacheRead := entry.Message.Usage.CacheReadInputTokens
          if inputTokens = 0 ∧ outputTokens = 0 ∧ cacheCreation = 0 ∧ cacheRead = 0 then cache'
          else
            let cost := calculateCost entry.Message.Model inputTokens outputTokens
              cacheCreation cacheRead env.pricing
            let day := env.localDay ts
            { cache' with DayCosts := updAdd day cost cache'.DayCosts }

/-- Mirrors the `bufio.Reader.ReadBytes` loop of `cost.processLogFile`:
split a byte sequence into lines, each including its trailing newline,
with a final partial line (no trailing newline) kept as a line of its own,
exactly as the `io.EOF` branch processes it. -/
def splitLines : List Char → List (List Char)
  | [] => []
  | c :: rest =>
    match splitLines rest with
    | [] => [[c]]
    | l :: ls => if c = '\n' then ['\n'] :: l :: ls else (c :: l) :: ls

/-- Total byte count of a list of lines (the `bytesRead` accumulation). -/
def sumLen (lines : List (List Char)) : Nat := (lines.map List.length).sum

/-- The per-file scan loop body: fold every produced line through
`processLogEntry`, mutating the cache in place as the Go loop does. -/
def scanLines (env : Env) (lines : List (List Char)) (cache : CostCache) : CostCache :=
  lines.foldl (fun c line => processLogEntry env line c) cache

/-- Mirrors the read loop and state update of `cost.processLogFile` after
the seek: scan the file content from `offset`.  The argument
`readErrorAfter` models the read collaborator: `some k` means a read
error other than `io.EOF` occurs after `k` lines were successfully read
(the Go code then returns without touching `FileState`); `none` means the
loop runs to `io.EOF` and the file's state is updated to the observed
mod-time, size and the accumulated `bytesRead`. -/
def doScan (env : Env) (path : String) (infoModTime infoSize : Int) (content : List Char)
    (readErrorAfter : Option Nat) (offset : Nat) (cache : CostCache) : CostCache :=
  let lines := splitLines (content.drop offset)
  match readErrorAfter with
  | some k => scanLines env (lines.take k) cache
  | none =>
    let cache' := scanLines env lines cache
    { cache' with
      FileState := insertTable path
        { ModTime := infoModTime, Size := infoSize,
          Offset := (offset : Int) + (sumLen lines : Int) } cache'.FileState }

/-- Mirrors `cost.processLogFile`: consult the prior `FileState` for the
path and either skip (mod-time and size both unchanged), resume from the
saved offset (size grew), or rescan from byte 0 (no prior state, file
shrank, or same size with changed mod-time).  `content` is the file's
current byte content as delivered by the reader collaborator; `infoSize`
and `infoModTime` are the stat results. -/
def processLogFile (env : Env) (path : String) (infoModTime infoSize : Int)
    (content : List Char) (readErrorAfter : Option Nat) (cache : CostCache) : CostCache :=
  match lookupTable cache.FileState path with
  | some state =>
    if state.ModTime = infoModTime ∧ state.Size = infoSize then cache
    else if state.Size < infoSize then
      doScan env path infoModTime infoSize content readErrorAfter state.Offset.toNat cache
    else
      doScan env path infoModTime infoSize content readErrorAfter 0 cache
  | none => doScan env path infoModTime infoSize content readErrorAfter 0 cache

/-- Mirrors the constant `cost.pricingCacheTTL` (24 hours), here in
seconds. -/
def pricingCacheTTL : Int := 24 * 60 * 60

/-- Mirrors `cost.loadPricing`.  The filesystem and clock collaborators
are explicit inputs: whether the pricing cache file exists
(`os.Stat` succeeding), its age `now - modTime` in seconds, and the
result of reading and JSON-decoding it (`none` for a read or parse
failure).  The returned flag records whether a background
`fetchAndCachePricing` task was spawned (`go ...`), which never blocks
and whose result is only visible to future invocations. -/
def loadPricing (cacheExists : Bool) (cacheAge : Int) (cacheParsed : Option PricingData)
    (embedded : PricingData) : PricingData × Bool :=
  if cacheExists then
    if cacheAge < pricingCacheTTL then
      match cacheParsed with
      | some pricing => (pricing, false)
      | none => (embedded, false)
    else (embedded, true)
  else (embedded, true)

/-- Days from the civil epoch 1970-01-01 for a (year, month, day) triple,
the standard civil-calendar algorithm; models the instant arithmetic of
Go's `time` package (a collaborator) restricted to whole local days. -/
def daysFromCivil (y m d : Int) : Int :=
  let y' := if m ≤ 2 then y - 1 else y
  let era := (if 0 ≤ y' then y' else y' - 399).tdiv 400
  let yoe := y' - era * 400
  let mAdj := if 2 < m then m - 3 else m + 9
  let doy := (153 * mAdj + 2).tdiv 5 + d - 1
  let doe := yoe * 365 + yoe.tdiv 4 - yoe.tdiv 100 + doy
  era * 146097 + doe - 719468

/-- Inverse of `daysFromCivil`: the (year, month, day) civil triple of an
epoch day number. -/
def civilFromDays (z : Int) : Int × Int × Int :=
  let z' := z + 719468
  let era := (if 0 ≤ z' then z' else z' - 146096).tdiv 146097
  let doe := z' - era * 146097
  let yoe := (doe - doe.tdiv 1460 + doe.tdiv 36524 - doe.tdiv 146096).tdiv 365
  let y := yoe + era * 400
  let doy := doe - (365 * yoe + yoe.tdiv 4 - yoe.tdiv 100)
  let mp := (5 * doy + 2).tdiv 153
  let d := doy - (153 * mp + 2).tdiv 5 + 1
  let m := if mp < 10 then mp + 3 else mp - 9
  (if m ≤ 2 then y + 1 else y, m, d)

/-- Go's `time.Weekday` of an epoch day number: Sunday = 0, and
1970-01-01 was a Thursday (= 4). -/
def goWeekday (z : Int) : Int := (z + 4) % 7

/-- Decimal rendering of a natural number zero-padded to width `w`, as
Go's `Format("2006-01-02")` pads each field. -/
def padNat (w : Nat) (n : Nat) : String :=
  let s := toString n
  (List.replicate (w - s.length) '0').asString ++ s

/-- Format a civil (year, month, day) triple as `YYYY-MM-DD`. -/
def formatCivil (y m d : Int) : String :=
  padNat 4 y.toNat ++ "-" ++ padNat 2 m.toNat ++ "-" ++ padNat 2 d.toNat

/-- Format an epoch day number as its `YYYY-MM-DD` date string, modelling
`t.Format("2006-01-02")`. -/
def formatDay (z : Int) : String :=
  match civilFromDays z with
  | (y, m, d) => formatCivil y m d

/-- Lexicographic (byte-wise) strict order on character lists, the order
Go uses for `string < string`.  Date strings are ASCII, so byte and
character comparison coincide. -/
def charListLt : List Char → List Char → Bool
  | _, [] => false
  | [], _ :: _ => true
  | a :: as, b :: bs => if a = b then charListLt as bs else decide (a < b)

/-- Go's `s >= t` on strings. -/
def strGe (s t : String) : Bool := ! charListLt s.toList t.toList

/-- Mirrors `cost.aggregateFixed`: fold the day buckets into calendar
windows — today, the Mon-Sun week (Go weekday 0 = Sunday is mapped to 7),
and the current month — comparing date strings with Go's `>=`.  The
instant `now` is modelled by its local epoch day number. -/
def aggregateFixed (cache : CostCache) (now : Int) : TokenStats :=
  let today := formatDay now
  let weekday0 := goWeekday now
  let weekday := if weekday0 = 0 then 7 else weekday0
  let weekStart := formatDay (now + -(weekday - 1))
  let ymd := civilFromDays now
  let monthStart := formatCivil ymd.1 ymd.2.1 1
  cache.DayCosts.foldl (fun stats dc =>
    let stats1 :=
      if strGe dc.1 monthStart then { stats with MonthlyCost := stats.MonthlyCost + dc.2 }
      else stats
    let stats2 :=
      if strGe dc.1 weekStart then { stats1 with WeeklyCost := stats1.WeeklyCost + dc.2 }
      else stats1
    if dc.1 = today then { stats2 with DailyCost := stats2.DailyCost + dc.2 } else stats2)
    { DailyCost := 0, WeeklyCost := 0, MonthlyCost := 0 }

/-- The epoch day of the most recent Monday on or before `now`, as the
code computes it: `now.AddDate(0, 0, -int(weekday-1))` with Sunday
mapped to 7. -/
def mondayOf (now : Int) : Int :=
  let weekday0 := goWeekday now
  let weekday := if weekday0 = 0 then 7 else weekday0
  now + -(weekday - 1)

/-- Sum of the day-bucket values whose date satisfies a predicate. -/
def sumWhere (p : String → Bool) (l : List (String × ℚ)) : ℚ :=
  ((l.filter fun dc => p dc.1).map fun dc => dc.2).sum

/-- Modelled from the claim's words for C1 (spec §4.4): the cost formula
as written in the specification, which charges output tokens once at the
input rate and once more at the output rate. -/
def specCostFormulaC1 (inputTokens outputTokens cacheCreation cacheRead : Nat)
    (p : ModelPricing) : ℚ :=
  (inputTokens : ℚ) / 1000000 * p.Input
    + (outputTokens : ℚ) / 1000000 * p.Input
    + (cacheCreation : ℚ) / 1000000 * p.Input * 1.25
    + (cacheRead : ℚ) / 1000000 * p.Input * 0.1
    + (outputTokens : ℚ) / 1000000 * p.Output

/-- Modelled from the claim's words for C8: weekly spend as the sum of
the buckets dated from the most recent Monday (inclusive) through today
(inclusive). -/
def specWeeklyThroughToday (cache : CostCache) (now : Int) : ℚ :=
  sumWhere (fun day => strGe day (formatDay (mondayOf now)) && strGe (formatDay now) day)
    cache.DayCosts

/-- The empty-but-valid cache snapshot `loadCostCache` starts from. -/
def emptyCache : CostCache := { DayCosts := [], FileState := [], ProcessedMessages := [] }

/-- A billable assistant entry used as a concrete test event. -/
def testEntry : LogEntry :=
  { Timestamp := "ts0", EntryType := "assistant",
    Message := { Model := "modelX", Usage := ⟨2, 3, 4, 5⟩, ID := "m" }, RequestID := "r" }

/-- A concrete environment whose decoder always yields `testEntry`. -/
def testEnv : Env :=
  { decode := fun _ => some testEntry, parseTime := fun _ => some 0,
    localDay := fun _ => "2025-01-02", pricing := { Models := [] }, monthlyCutoff := -5 }

/-- An assistant entry whose four token counts are all zero. -/
def zeroEntry : LogEntry :=
  { Timestamp := "ts0", EntryType := "assistant",
    Message := { Model := "modelX", Usage := ⟨0, 0, 0, 0⟩, ID := "m" }, RequestID := "r" }

/-- A concrete environment whose decoder always yields `zeroEntry`. -/
def zeroEnv : Env := { testEnv with decode := fun _ => some zeroEntry }

/-- One complete log line of the newline-delimited JSON schema of §6. -/
def cxLine : String :=
  "\x7b\"timestamp\":\"2099-01-01T00:00:00Z\",\"type\":\"assistant\",\"requestId\":\"r\",\"message\":\x7b\"id\":\"m\",\"model\":\"x\",\"usage\":\x7b\"input_tokens\":1000000\x7d\x7d\x7d"

/-- The event `cxLine` decodes to. -/
def cxEntry : LogEntry :=
  { Timestamp := "2099-01-01T00:00:00Z", EntryType := "assistant",
    Message := { Model := "x", Usage := ⟨1000000, 0, 0, 0⟩, ID := "m" }, RequestID := "r" }

/-- Models `json.Unmarshal` on the lines arising in the C2 scenario: the
complete JSON line `cxLine` (with or without its trailing newline)
decodes to `cxEntry`; every proper fragment of it is malformed JSON and
is rejected, exactly as `json.Unmarshal` rejects a truncated object. -/
def decodeCx (l : List Char) : Option LogEntry :=
  if l = cxLine.toList ∨ l = cxLine.toList ++ ['\n'] then some cxEntry else none

/-- Environment for the C2 scenario: `decodeCx` with an RFC3339 parser
defined on the one timestamp in play. -/
def envCx : Env :=
  { decode := decodeCx,
    parseTime := fun s => if s = "2099-01-01T00:00:00Z" then some 0 else none,
    localDay := fun _ => "2099-01-01", pricing := { Models := [] }, monthlyCutoff := -1 }

/-! Helper lemmas about the association-list operations. -/

theorem lookupTable_insertTable_self {α : Type} (k : String) (v : α) (l : List (String × α)) :
    lookupTable (insertTable k v l) k = some v := by
  induction l with
  | nil => simp [insertTable, lookupTable]
  | cons hd tl ih =>
    obtain ⟨k', v'⟩ := hd
    by_cases h : k = k' <;> simp [insertTable, lookupTable, h, ih]

theorem getDay_cons (k' : String) (v' : ℚ) (rest : List (String × ℚ)) (k : String) :
    getDay ((k', v') :: rest) k = if k = k' then v' else getDay rest k := by
  by_cases h : k = k' <;> simp [getDay, lookupTable, h]

theorem getDay_updAdd_self (k : String) (v : ℚ) (l : List (String × ℚ)) :
    getDay (updAdd k v l) k = getDay l k + v := by
  induction l with
  | nil => simp [updAdd, getDay, lookupTable]
  | cons hd tl ih =>
    obtain ⟨k', v'⟩ := hd
    by_cases h : k = k' <;> simp [updAdd, h, getDay_cons, ih]

/-! Characterization lemmas for `processLogEntry`, one per branch of the
Go filter chain. -/

theorem processLogEntry_noDecode (env : Env) (line : List Char) (cache : CostCache)
    (hd : env.decode line = none) : processLogEntry env line cache = cache := by
  simp [processLogEntry, hd]

theorem processLogEntry_noParse (env : Env) (line : List Char) (cache : CostCache)
    (entry : LogEntry) (hd : env.decode line = some entry)
    (hp : env.parseTime entry.Timestamp = none) :
    processLogEntry env line cache = cache := by
  simp [processLogEntry, hd, hp]

theorem processLogEntry_cutoff (env : Env) (line : List Char) (cache : CostCache)
    (entry : LogEntry) (ts : Int) (hd : env.decode line = some entry)
    (hp : env.parseTime entry.Timestamp = some ts) (hc : ts < env.monthlyCutoff) :
    processLogEntry env line cache = cache := by
  simp [processLogEntry, hd, hp, hc]

theorem processLogEntry_role (env : Env) (line : List Char) (cache : CostCache)
    (entry : LogEntry) (ts : Int) (hd : env.decode line = some entry)
    (hp : env.parseTime entry.Timestamp = some ts) (hc : ¬ ts < env.monthlyCutoff)
    (hr : entry.EntryType ≠ "assistant") :
    processLogEntry env line cache = cache := by
  simp [processLogEntry, hd, hp, hc, hr]

theorem processLogEntry_keySkip (env : Env) (line : List Char) (cache : CostCache)
    (entry : LogEntry) (ts : Int) (hd : env.decode line = some entry)
    (hp : env.parseTime entry.Timestamp = some ts) (hc : ¬ ts < env.monthlyCutoff)
    (hr : entry.EntryType = "assistant")
    (hk : entry.Message.ID ++ ":" ++ entry.RequestID = ":" ∨
      entry.Message.ID ++ ":" ++ entry.RequestID ∈ cache.ProcessedMessages) :
    processLogEntry env line cache = cache := by
  rcases hk with hk | hk <;> simp [processLogEntry, hd, hp, hc, hr, hk]

theorem processLogEntry_zeroTokens (env : Env) (line : List Char) (cache : CostCache)
    (entry : LogEntry) (ts : Int) (hd : env.decode line = some entry)
    (hp : env.parseTime entry.Timestamp = some ts) (hc : ¬ ts < env.monthlyCutoff)
    (hr : entry.EntryType = "assistant")
    (hk : entry.Message.ID ++ ":" ++ entry.RequestID ≠ ":")
    (hf : entry.Message.ID ++ ":" ++ entry.RequestID ∉ cache.ProcessedMessages)
    (hz : entry.Message.Usage.InputTokens = 0 ∧ entry.Message.Usage.OutputTokens = 0 ∧
      entry.Message.Usage.CacheCreationInputTokens = 0 ∧
      entry.Message.Usage.CacheReadInputTokens = 0) :
    processLogEntry env line cache
      = { cache with ProcessedMessages :=
            (entry.Message.ID ++ ":" ++ entry.RequestID) :: cache.ProcessedMessages } := by
  simp [processLogEntry, hd, hp, hc, hr, hk, hf, hz]

theorem processLogEntry_billable (env : Env) (line : List Char) (cache : CostCache)
    (entry : LogEntry) (ts : Int) (hd : env.decode line = some entry)
    (hp : env.parseTime entry.Timestamp = some ts) (hc : ¬ ts < env.monthlyCutoff)
    (hr : entry.EntryType = "assistant")
    (hk : entry.Message.ID ++ ":" ++ entry.RequestID ≠ ":")
    (hf : entry.Message.ID ++ ":" ++ entry.RequestID ∉ cache.ProcessedMessages)
    (hz : ¬ (entry.Message.Usage.InputTokens = 0 ∧ entry.Message.Usage.OutputTokens = 0 ∧
      entry.Message.Usage.CacheCreationInputTokens = 0 ∧
      entry.Message.Usage.CacheReadInputTokens = 0)) :
    processLogEntry env line cache
      = { cache with
          ProcessedMessages :=
            (entry.Message.ID ++ ":" ++ entry.RequestID) :: cache.ProcessedMessages,
          DayCosts := updAdd (env.localDay ts)
            (calculateCost entry.Message.Model entry.Message.Usage.InputTokens
              entry.Message.Usage.OutputTokens entry.Message.Usage.CacheCreationInputTokens
              entry.Message.Usage.CacheReadInputTokens env.pricing) cache.DayCosts } := by
  simp [processLogEntry, hd, hp, hc, hr, hk, hf, hz]

theorem processLogEntry_idem (env : Env) (line : List Char) (cache : CostCache) :
    processLogEntry env line (processLogEntry env line cache) = processLogEntry env line cache := by
  cases hd : env.decode line with
  | none => simp only [processLogEntry_noDecode env line cache hd]
  | some entry =>
    cases hp : env.parseTime entry.Timestamp with
    | none => simp only [processLogEntry_noParse env line cache entry hd hp]
    | some ts =>
      by_cases hc : ts < env.monthlyCutoff
      · simp only [processLogEntry_cutoff env line cache entry ts hd hp hc]
      · by_cases hr : entry.EntryType = "assistant"
        · by_cases hk : entry.Message.ID ++ ":" ++ entry.RequestID = ":"
          · simp only [processLogEntry_keySkip env line cache entry ts hd hp hc hr (Or.inl hk)]
          · by_cases hm : entry.Message.ID ++ ":" ++ entry.RequestID ∈ cache.ProcessedMessages
            · simp only [processLogEntry_keySkip env line cache entry ts hd hp hc hr (Or.inr hm)]
            · by_cases hz : entry.Message.Usage.InputTokens = 0 ∧
                entry.Message.Usage.OutputTokens = 0 ∧
                entry.Message.Usage.CacheCreationInputTokens = 0 ∧
                entry.Message.Usage.CacheReadInputTokens = 0
              · rw [processLogEntry_zeroTokens env line cache entry ts hd hp hc hr hk hm hz]
                exact processLogEntry_keySkip env line _ entry ts hd hp hc hr
                  (Or.inr (List.mem_cons_self _ _))
              · rw [processLogEntry_billable env line cache entry ts hd hp hc hr hk hm hz]
                exact processLogEntry_keySkip env line _ entry ts hd hp hc hr
                  (Or.inr (List.mem_cons_self _ _))
        · simp only [processLogEntry_role env line cache entry ts hd hp hc hr]

theorem processLogEntry_iterate_fix (env : Env) (line : List Char) :
    ∀ (m : Nat) (cache : CostCache),
      (fun c => processLogEntry env line c)^[m] (processLogEntry env line cache)
        = processLogEntry env line cache := by
  intro m
  induction m with
  | zero => intro cache; rfl
  | succ k ih =>
    intro cache
    simp only [Function.iterate_succ_apply, processLogEntry_idem]
    exact ih cache

/-- C1 counterexample: the specification's cost formula (which charges
output tokens once at the input rate and once at the output rate)
disagrees with the code's `calculateCost` already for an event of one
million output tokens and zero other tokens under the default $3/$15
price pair: the code charges $15, the specified formula $18. -/
theorem C1_counterexample :
    calculateCost "claude-x" 0 1000000 0 0 { Models := [] }
      ≠ specCostFormulaC1 0 1000000 0 0 (getPricing "claude-x" { Models := [] }) := by
  decide

/-- C1 (amended): for every decoded billable event that survives the
filter chain, the accumulator charges
`inputTokens/1e6 * price.input + cacheCreationTokens/1e6 * price.input * 1.25
+ cacheReadTokens/1e6 * price.input * 0.10 + outputTokens/1e6 * price.output`
(output tokens are charged at the output rate only, not additionally at
the input rate as the claim stated), and adds exactly that cost to the
day bucket keyed by the event timestamp's local calendar date, creating
the bucket if absent. -/
theorem C1_cost_and_bucket (env : Env) (line : List Char) (cache : CostCache)
    (entry : LogEntry) (ts : Int)
    (hd : env.decode line = some entry)
    (hp : env.parseTime entry.Timestamp = some ts)
    (hc : ¬ ts < env.monthlyCutoff)
    (hr : entry.EntryType = "assistant")
    (hk : entry.Message.ID ++ ":" ++ entry.RequestID ≠ ":")
    (hf : entry.Message.ID ++ ":" ++ entry.RequestID ∉ cache.ProcessedMessages)
    (hz : ¬ (entry.Message.Usage.InputTokens = 0 ∧ entry.Message.Usage.OutputTokens = 0 ∧
      entry.Message.Usage.CacheCreationInputTokens = 0 ∧
      entry.Message.Usage.CacheReadInputTokens = 0)) :
    calculateCost entry.Message.Model entry.Message.Usage.InputTokens
        entry.Message.Usage.OutputTokens entry.Message.Usage.CacheCreationInputTokens
        entry.Message.Usage.CacheReadInputTokens env.pricing
      = (entry.Message.Usage.InputTokens : ℚ) / 1000000
            * (getPricing entry.Message.Model env.pricing).Input
        + (entry.Message.Usage.CacheCreationInputTokens : ℚ) / 1000000
            * (getPricing entry.Message.Model env.pricing).Input * 1.25
        + (entry.Message.Usage.CacheReadInputTokens : ℚ) / 1000000
            * (getPricing entry.Message.Model env.pricing).Input * 0.1
        + (entry.Message.Usage.OutputTokens : ℚ) / 1000000
            * (getPricing entry.Message.Model env.pricing).Output
    ∧ (processLogEntry env line cache).DayCosts
      = updAdd (env.localDay ts)
          (calculateCost entry.Message.Model entry.Message.Usage.InputTokens
            entry.Message.Usage.OutputTokens entry.Message.Usage.CacheCreationInputTokens
            entry.Message.Usage.CacheReadInputTokens env.pricing) cache.DayCosts
    ∧ getDay (processLogEntry env line cache).DayCosts (env.localDay ts)
      = getDay cache.DayCosts (env.localDay ts)
        + calculateCost entry.Message.Model entry.Message.Usage.InputTokens
            entry.Message.Usage.OutputTokens entry.Message.Usage.CacheCreationInputTokens
            entry.Message.Usage.CacheReadInputTokens env.pricing := by
  refine ⟨rfl, ?_, ?_⟩
  · rw [processLogEntry_billable env line cache entry ts hd hp hc hr hk hf hz]
  · rw [processLogEntry_billable env line cache entry ts hd hp hc hr hk hf hz]
    exact getDay_updAdd_self _ _ _

/-- Witness for C1: the amended theorem applied to a concrete billable
event (2/3/4/5 tokens) in a concrete environment. -/
theorem C1_witness :
    testEnv.decode [] = some testEntry
    ∧ ¬ (0 : Int) < testEnv.monthlyCutoff
    ∧ (calculateCost testEntry.Message.Model testEntry.Message.Usage.InputTokens
          testEntry.Message.Usage.OutputTokens testEntry.Message.Usage.CacheCreationInputTokens
          testEntry.Message.Usage.CacheReadInputTokens testEnv.pricing
        = (testEntry.Message.Usage.InputTokens : ℚ) / 1000000
              * (getPricing testEntry.Message.Model testEnv.pricing).Input
          + (testEntry.Message.Usage.CacheCreationInputTokens : ℚ) / 1000000
              * (getPricing testEntry.Message.Model testEnv.pricing).Input * 1.25
          + (testEntry.Message.Usage.CacheReadInputTokens : ℚ) / 1000000
              * (getPricing testEntry.Message.Model testEnv.pricing).Input * 0.1
          + (testEntry.Message.Usage.OutputTokens : ℚ) / 1000000
              * (getPricing testEntry.Message.Model testEnv.pricing).Output
      ∧ (processLogEntry testEnv [] emptyCache).DayCosts
        = updAdd (testEnv.localDay 0)
            (calculateCost testEntry.Message.Model testEntry.Message.Usage.InputTokens
              testEntry.Message.Usage.OutputTokens testEntry.Message.Usage.CacheCreationInputTokens
              testEntry.Message.Usage.CacheReadInputTokens testEnv.pricing) emptyCache.DayCosts
      ∧ getDay (processLogEntry testEnv [] emptyCache).DayCosts (testEnv.localDay 0)
        = getDay emptyCache.DayCosts (testEnv.localDay 0)
          + calculateCost testEntry.Message.Model testEntry.Message.Usage.InputTokens
              testEntry.Message.Usage.OutputTokens testEntry.Message.Usage.CacheCreationInputTokens
              testEntry.Message.Usage.CacheReadInputTokens testEnv.pricing) :=
  ⟨rfl, by decide,
    C1_cost_and_bucket testEnv [] emptyCache testEntry 0 rfl rfl (by decide) rfl
      (by decide) (by decide) (by decide)⟩

/-- C4: the pricing resolver never fails and follows the fallback chain
in order — exact table match; the id with its date-like suffix stripped
(when `strings.LastIndex(model, "-20")` finds a positive index); that
versioned id with numeric segments stripped; the original id with
numeric segments stripped; and finally the hard-coded default $3/$15 —
and in particular `"x-sonnet-4-5-20250514"` against a table containing
only `"x-sonnet"` resolves to the `"x-sonnet"` price, not the default. -/
theorem C4_pricing_fallback :
    (∀ model pricing p, lookupTable (PricingData.Models pricing) model = some p →
        getPricing model pricing = p)
    ∧ (∀ model pricing p, lookupTable (PricingData.Models pricing) model = none →
        dateSuffixLookup model pricing = some p → getPricing model pricing = p)
    ∧ (∀ model pricing p, lookupTable (PricingData.Models pricing) model = none →
        dateSuffixLookup model pricing = none →
        lookupTable (PricingData.Models pricing) (stripVersion model) = some p →
        getPricing model pricing = p)
    ∧ (∀ model pricing, lookupTable (PricingData.Models pricing) model = none →
        dateSuffixLookup model pricing = none →
        lookupTable (PricingData.Models pricing) (stripVersion model) = none →
        getPricing model pricing = { Input := 3, Output := 15 })
    ∧ (∀ model pricing idx p, lastIndexDash20 model.toList = some idx → 0 < idx →
        lookupTable (PricingData.Models pricing) ((model.toList.take idx).asString) = some p →
        dateSuffixLookup model pricing = some p)
    ∧ (∀ model pricing idx, lastIndexDash20 model.toList = some idx → 0 < idx →
        lookupTable (PricingData.Models pricing) ((model.toList.take idx).asString) = none →
        dateSuffixLookup model pricing
          = lookupTable (PricingData.Models pricing)
              (stripVersion ((model.toList.take idx).asString)))
    ∧ (∀ p : ModelPricing,
        getPricing "x-sonnet-4-5-20250514" { Models := [("x-sonnet", p)] } = p) := by
  refine ⟨?_, ?_, ?_, ?_, ?_, ?_, ?_⟩
  · intro model pricing p h; simp [getPricing, h]
  · intro model pricing p h1 h2; simp [getPricing, h1, h2]
  · intro model pricing p h1 h2 h3; simp [getPricing, h1, h2, h3]
  · intro model pricing h1 h2 h3; simp [getPricing, h1, h2, h3]
  · intro model pricing idx p h1 h2 h3
    simp only [String.toList] at h1 h3
    simp [dateSuffixLookup, h1, h2, h3]
  · intro model pricing idx h1 h2 h3
    simp only [String.toList] at h1 h3
    simp [dateSuffixLookup, h1, h2, h3]
  · intro p; rfl

/-- Witness for C4: with an empty table every lookup fails and the
resolver returns the documented $3/$15 default. -/
theorem C4_witness :
    lookupTable (PricingData.Models { Models := [] }) "zz" = none
    ∧ dateSuffixLookup "zz" { Models := [] } = none
    ∧ lookupTable (PricingData.Models { Models := [] }) (stripVersion "zz") = none
    ∧ getPricing "zz" { Models := [] } = { Input := 3, Output := 15 } :=
  ⟨rfl, rfl, rfl, C4_pricing_fallback.2.2.2.1 "zz" { Models := [] } rfl rfl rfl⟩

/-- C5: the accumulator is idempotent with respect to the dedup key —
feeding the same log line N ≥ 1 times leaves the day-bucket totals equal
to those after feeding it exactly once. -/
theorem C5_idempotent_dedup (env : Env) (line : List Char) (cache : CostCache) (n : Nat)
    (hn : 1 ≤ n) :
    ((fun c => processLogEntry env line c)^[n] cache).DayCosts
      = (processLogEntry env line cache).DayCosts := by
  obtain ⟨m, rfl⟩ : ∃ m, n = m + 1 := ⟨n - 1, by omega⟩
  simp only [Function.iterate_succ_apply]
  rw [processLogEntry_iterate_fix]

/-- Witness for C5: three applications of the accumulator on a concrete
event equal one application. -/
theorem C5_witness :
    1 ≤ 3
    ∧ ((fun c => processLogEntry testEnv [] c)^[3] emptyCache).DayCosts
      = (processLogEntry testEnv [] emptyCache).DayCosts :=
  ⟨by decide, C5_idempotent_dedup testEnv [] emptyCache 3 (by decide)⟩

/-- C6 counterexample: with an existing pricing cache aged 90000 s
(beyond the 86400 s window) holding a parseable table different from the
embedded one, `loadPricing` spawns the background refresh but prices the
current run with the embedded table, not the stale external one as the
claim states. -/
theorem C6_counterexample :
    (loadPricing true 90000 (some { Models := [("m", { Input := 1, Output := 2 })] })
        { Models := [] }).2 = true
    ∧ (loadPricing true 90000 (some { Models := [("m", { Input := 1, Output := 2 })] })
        { Models := [] }).1 ≠ { Models := [("m", { Input := 1, Output := 2 })] } := by
  decide

/-- C6 (amended): when the pricing cache file exists but its last fetch
is older than the 24-hour freshness window, a non-blocking background
refresh is started and the embedded table — not the stale external one —
prices the current computation. -/
theorem C6_stale_uses_embedded (age : Int) (parsed : Option PricingData)
    (embedded : PricingData) (hstale : ¬ age < pricingCacheTTL) :
    loadPricing true age parsed embedded = (embedded, true) := by
  simp [loadPricing, hstale]

/-- Witness for C6: the amended theorem at age 90000 s. -/
theorem C6_witness :
    ¬ (90000 : Int) < pricingCacheTTL
    ∧ loadPricing true 90000 (some { Models := [("m", { Input := 1, Output := 2 })] })
        { Models := [] } = ({ Models := [] }, true) :=
  ⟨by decide,
    C6_stale_uses_embedded 90000 (some { Models := [("m", { Input := 1, Output := 2 })] })
      { Models := [] } (by decide)⟩

/-- C7 counterexample: a decoded assistant entry with a valid in-window
timestamp, a fresh valid dedup key and all four token counts zero does
leave the day buckets and file state unchanged, but the dedup key is
inserted into the dedup set before the zero-token check, so the cache
snapshot does change, contrary to the claim. -/
theorem C7_counterexample :
    processLogEntry zeroEnv [] emptyCache
        = { emptyCache with ProcessedMessages := ["m:r"] }
    ∧ (processLogEntry zeroEnv [] emptyCache).ProcessedMessages
        ≠ emptyCache.ProcessedMessages := by
  decide

/-- C7 (amended): processing a line that decodes to an assistant entry
with a parseable in-window timestamp and a fresh valid dedup key whose
four token counts are all zero changes no day-bucket value and no file
scan state, but does record the dedup key in the dedup set. -/
theorem C7_zero_tokens_skip (env : Env) (line : List Char) (cache : CostCache)
    (entry : LogEntry) (ts : Int)
    (hd : env.decode line = some entry)
    (hp : env.parseTime entry.Timestamp = some ts)
    (hc : ¬ ts < env.monthlyCutoff)
    (hr : entry.EntryType = "assistant")
    (hk : entry.Message.ID ++ ":" ++ entry.RequestID ≠ ":")
    (hf : entry.Message.ID ++ ":" ++ entry.RequestID ∉ cache.ProcessedMessages)
    (hz : entry.Message.Usage.InputTokens = 0 ∧ entry.Message.Usage.OutputTokens = 0 ∧
      entry.Message.Usage.CacheCreationInputTokens = 0 ∧
      entry.Message.Usage.CacheReadInputTokens = 0) :
    (processLogEntry env line cache).DayCosts = cache.DayCosts
    ∧ (processLogEntry env line cache).FileState = cache.FileState
    ∧ (processLogEntry env line cache).ProcessedMessages
      = (entry.Message.ID ++ ":" ++ entry.RequestID) :: cache.ProcessedMessages := by
  rw [processLogEntry_zeroTokens env line cache entry ts hd hp hc hr hk hf hz]
  exact ⟨rfl, rfl, rfl⟩

/-- Witness for C7: the amended theorem on a concrete zero-token
assistant entry. -/
theorem C7_witness :
    zeroEnv.decode [] = some zeroEntry
    ∧ ((processLogEntry zeroEnv [] emptyCache).DayCosts = emptyCache.DayCosts
      ∧ (processLogEntry zeroEnv [] emptyCache).FileState = emptyCache.FileState
      ∧ (processLogEntry zeroEnv [] emptyCache).ProcessedMessages
        = (zeroEntry.Message.ID ++ ":" ++ zeroEntry.RequestID) :: emptyCache.ProcessedMessages) :=
  ⟨rfl,
    C7_zero_tokens_skip zeroEnv [] emptyCache zeroEntry 0 rfl rfl (by decide) rfl
      (by decide) (by decide) (by decide)⟩

/-! Lemmas about the incremental file scanner. -/

theorem splitLines_cons (c : Char) (l : List Char) :
    splitLines (c :: l)
      = match splitLines l with
        | [] => [[c]]
        | h :: t => if c = '\n' then ['\n'] :: h :: t else (c :: h) :: t := rfl

theorem splitLines_ne_nil (c : Char) (rest : List Char) : splitLines (c :: rest) ≠ [] := by
  rw [splitLines_cons]
  cases splitLines rest with
  | nil => simp
  | cons h t => by_cases hc : c = '\n' <;> simp [hc]

theorem sumLen_splitLines (l : List Char) : sumLen (splitLines l) = l.length := by
  induction l with
  | nil => rfl
  | cons c rest ih =>
    rw [splitLines_cons]
    cases hs : splitLines rest with
    | nil =>
      cases rest with
      | nil => simp [sumLen]
      | cons c2 r2 => exact absurd hs (splitLines_ne_nil c2 r2)
    | cons h t =>
      rw [hs] at ih
      by_cases hc : c = '\n' <;> simp [hc, sumLen] at ih ⊢ <;> omega

theorem splitLines_newline_append (b : List Char) :
    splitLines ('\n' :: b) = ['\n'] :: splitLines b := by
  rw [splitLines_cons]
  cases splitLines b with
  | nil => rfl
  | cons h t => simp

theorem splitLines_append (a b : List Char) (h : a = [] ∨ a.getLast? = some '\n') :
    splitLines (a ++ b) = splitLines a ++ splitLines b := by
  rcases h with rfl | h
  · rfl
  · induction a with
    | nil => rfl
    | cons c rest ih =>
      cases rest with
      | nil =>
        have hc : c = '\n' := by simpa using h
        subst hc
        rw [List.cons_append, List.nil_append, splitLines_newline_append]
        rfl
      | cons c2 r2 =>
        have h' : (c2 :: r2).getLast? = some '\n' := by
          rwa [List.getLast?_cons_cons] at h
        obtain ⟨hd, tl, hsplit⟩ : ∃ hd tl, splitLines (c2 :: r2) = hd :: tl := by
          cases hx : splitLines (c2 :: r2) with
          | nil => exact absurd hx (splitLines_ne_nil c2 r2)
          | cons x y => exact ⟨x, y, rfl⟩
        have ihh := ih h'
        rw [List.cons_append, splitLines_cons, splitLines_cons, ihh, hsplit,
          List.cons_append]
        by_cases hc : c = '\n' <;> simp [hc]

theorem scanLines_nil (env : Env) (cache : CostCache) : scanLines env [] cache = cache := rfl

theorem scanLines_cons (env : Env) (l : List Char) (ls : List (List Char)) (cache : CostCache) :
    scanLines env (l :: ls) cache = scanLines env ls (processLogEntry env l cache) := rfl

theorem scanLines_append (env : Env) (l1 l2 : List (List Char)) (cache : CostCache) :
    scanLines env (l1 ++ l2) cache = scanLines env l2 (scanLines env l1 cache) := by
  simp [scanLines, List.foldl_append]

theorem processLogEntry_fileState_frame (env : Env) (line : List Char) (cache : CostCache)
    (f : List (String × FileProcessState)) :
    processLogEntry env line { cache with FileState := f }
      = { processLogEntry env line cache with FileState := f } := by
  cases hd : env.decode line with
  | none =>
    rw [processLogEntry_noDecode env line { cache with FileState := f } hd,
      processLogEntry_noDecode env line cache hd]
  | some entry =>
    cases hp : env.parseTime entry.Timestamp with
    | none =>
      rw [processLogEntry_noParse env line { cache with FileState := f } entry hd hp,
        processLogEntry_noParse env line cache entry hd hp]
    | some ts =>
      by_cases hc : ts < env.monthlyCutoff
      · rw [processLogEntry_cutoff env line { cache with FileState := f } entry ts hd hp hc,
          processLogEntry_cutoff env line cache entry ts hd hp hc]
      · by_cases hr : entry.EntryType = "assistant"
        · by_cases hk : entry.Message.ID ++ ":" ++ entry.RequestID = ":"
          · rw [processLogEntry_keySkip env line { cache with FileState := f } entry ts hd hp hc
                hr (Or.inl hk),
              processLogEntry_keySkip env line cache entry ts hd hp hc hr (Or.inl hk)]
          · by_cases hm : entry.Message.ID ++ ":" ++ entry.RequestID ∈ cache.ProcessedMessages
            · rw [processLogEntry_keySkip env line { cache with FileState := f } entry ts hd hp hc
                  hr (Or.inr hm),
                processLogEntry_keySkip env line cache entry ts hd hp hc hr (Or.inr hm)]
            · by_cases hz : entry.Message.Usage.InputTokens = 0 ∧
                entry.Message.Usage.OutputTokens = 0 ∧
                entry.Message.Usage.CacheCreationInputTokens = 0 ∧
                entry.Message.Usage.CacheReadInputTokens = 0
              · rw [processLogEntry_zeroTokens env line { cache with FileState := f } entry ts hd
                    hp hc hr hk hm hz,
                  processLogEntry_zeroTokens env line cache entry ts hd hp hc hr hk hm hz]
              · rw [processLogEntry_billable env line { cache with FileState := f } entry ts hd
                    hp hc hr hk hm hz,
                  processLogEntry_billable env line cache entry ts hd hp hc hr hk hm hz]
        · rw [processLogEntry_role env line { cache with FileState := f } entry ts hd hp hc hr,
            processLogEntry_role env line cache entry ts hd hp hc hr]

theorem scanLines_fileState_frame (env : Env) (lines : List (List Char)) (cache : CostCache)
    (f : List (String × FileProcessState)) :
    scanLines env lines { cache with FileState := f }
      = { scanLines env lines cache with FileState := f } := by
  induction lines generalizing cache with
  | nil => rfl
  | cons l ls ih =>
    rw [scanLines_cons, scanLines_cons, processLogEntry_fileState_frame, ih]

theorem scanLines_fileState (env : Env) (lines : List (List Char)) (cache : CostCache) :
    (scanLines env lines cache).FileState = cache.FileState := by
  calc (scanLines env lines cache).FileState
      = (scanLines env lines { cache with FileState := cache.FileState }).FileState := rfl
    _ = ({ scanLines env lines cache with FileState := cache.FileState }).FileState := by
        rw [scanLines_fileState_frame]
    _ = cache.FileState := rfl

theorem doScan_complete (env : Env) (path : String) (modNow sizeNow : Int)
    (content : List Char) (off : Nat) (cache : CostCache) :
    doScan env path modNow sizeNow content none off cache
      = { scanLines env (splitLines (content.drop off)) cache with
          FileState := insertTable path
            { ModTime := modNow, Size := sizeNow,
              Offset := (off : Int) + (((content.drop off).length : Nat) : Int) }
            (scanLines env (splitLines (content.drop off)) cache).FileState } := by
  simp only [doScan, sumLen_splitLines]

theorem doScan_err (env : Env) (path : String) (modNow sizeNow : Int)
    (content : List Char) (k : Nat) (off : Nat) (cache : CostCache) :
    doScan env path modNow sizeNow content (some k) off cache
      = scanLines env ((splitLines (content.drop off)).take k) cache := rfl

/-! Branch characterizations of `processLogFile`. -/

theorem processLogFile_noState (env : Env) (path : String) (modNow sizeNow : Int)
    (content : List Char) (re : Option Nat) (cache : CostCache)
    (h : lookupTable cache.FileState path = none) :
    processLogFile env path modNow sizeNow content re cache
      = doScan env path modNow sizeNow content re 0 cache := by
  simp [processLogFile, h]

theorem processLogFile_skip (env : Env) (path : String) (modNow sizeNow : Int)
    (content : List Char) (re : Option Nat) (cache : CostCache) (st : FileProcessState)
    (h : lookupTable cache.FileState path = some st)
    (hm : st.ModTime = modNow) (hs : st.Size = sizeNow) :
    processLogFile env path modNow sizeNow content re cache = cache := by
  simp [processLogFile, h, hm, hs]

theorem processLogFile_resume (env : Env) (path : String) (modNow sizeNow : Int)
    (content : List Char) (re : Option Nat) (cache : CostCache) (st : FileProcessState)
    (h : lookupTable cache.FileState path = some st) (hs : st.Size < sizeNow) :
    processLogFile env path modNow sizeNow content re cache
      = doScan env path modNow sizeNow content re st.Offset.toNat cache := by
  simp [processLogFile, h, hs, ne_of_lt hs]

theorem processLogFile_shrank (env : Env) (path : String) (modNow sizeNow : Int)
    (content : List Char) (re : Option Nat) (cache : CostCache) (st : FileProcessState)
    (h : lookupTable cache.FileState path = some st) (hs : sizeNow < st.Size) :
    processLogFile env path modNow sizeNow content re cache
      = doScan env path modNow sizeNow content re 0 cache := by
  simp [processLogFile, h, ne_of_gt hs, not_lt_of_gt hs]

theorem processLogFile_rewritten (env : Env) (path : String) (modNow sizeNow : Int)
    (content : List Char) (re : Option Nat) (cache : CostCache) (st : FileProcessState)
    (h : lookupTable cache.FileState path = some st)
    (hs : st.Size = sizeNow) (hm : st.ModTime ≠ modNow) :
    processLogFile env path modNow sizeNow content re cache
      = doScan env path modNow sizeNow content re 0 cache := by
  simp [processLogFile, h, hs, hm]

/-- C3: the scanner's per-file decision table — no prior state: scan from
byte 0; mod-time and size both unchanged: skip without reading (the cache
is returned untouched); size grew: resume at the saved byte offset
regardless of the mod-time; size shrank: rescan from byte 0; size
unchanged but mod-time changed: rescan from byte 0. -/
theorem C3_scan_decision (env : Env) (path : String) (modNow sizeNow : Int)
    (content : List Char) (re : Option Nat) (cache : CostCache) :
    (lookupTable cache.FileState path = none →
      processLogFile env path modNow sizeNow content re cache
        = doScan env path modNow sizeNow content re 0 cache)
    ∧ (∀ st, lookupTable cache.FileState path = some st →
        st.ModTime = modNow → st.Size = sizeNow →
        processLogFile env path modNow sizeNow content re cache = cache)
    ∧ (∀ st, lookupTable cache.FileState path = some st → st.Size < sizeNow →
        processLogFile env path modNow sizeNow content re cache
          = doScan env path modNow sizeNow content re st.Offset.toNat cache)
    ∧ (∀ st, lookupTable cache.FileState path = some st → sizeNow < st.Size →
        processLogFile env path modNow sizeNow content re cache
          = doScan env path modNow sizeNow content re 0 cache)
    ∧ (∀ st, lookupTable cache.FileState path = some st →
        st.Size = sizeNow → st.ModTime ≠ modNow →
        processLogFile env path modNow sizeNow content re cache
          = doScan env path modNow sizeNow content re 0 cache) :=
  ⟨fun h => processLogFile_noState env path modNow sizeNow content re cache h,
    fun st h hm hs => processLogFile_skip env path modNow sizeNow content re cache st h hm hs,
    fun st h hs => processLogFile_resume env path modNow sizeNow content re cache st h hs,
    fun st h hs => processLogFile_shrank env path modNow sizeNow content re cache st h hs,
    fun st h hs hm => processLogFile_rewritten env path modNow sizeNow content re cache st h hs hm⟩

/-- Witness for C3: a grown file (saved size 10, current size 20, saved
offset 10) is resumed at byte 10 even though its mod-time also changed
(saved 5, current 7). -/
theorem C3_witness :
    lookupTable
        (CostCache.mk [] [("p", { ModTime := 5, Size := 10, Offset := 10 })] []).FileState "p"
      = some { ModTime := 5, Size := 10, Offset := 10 }
    ∧ (10 : Int) < 20
    ∧ processLogFile testEnv "p" 7 20 [] none
        (CostCache.mk [] [("p", { ModTime := 5, Size := 10, Offset := 10 })] [])
      = doScan testEnv "p" 7 20 [] none (10 : Int).toNat
        (CostCache.mk [] [("p", { ModTime := 5, Size := 10, Offset := 10 })] []) :=
  ⟨rfl, by decide,
    (C3_scan_decision testEnv "p" 7 20 [] none
      (CostCache.mk [] [("p", { ModTime := 5, Size := 10, Offset := 10 })] [])).2.2.1
      { ModTime := 5, Size := 10, Offset := 10 } rfl (by decide)⟩

/-- C9: a read error other than end-of-file that interrupts the scan of a
file (modelled as occurring after `k` successfully read lines, for any
`k`) leaves the file-scan-state table exactly as it was before the scan
began, whatever branch the scanner took. -/
theorem C9_read_error_keeps_state (env : Env) (path : String) (modNow sizeNow : Int)
    (content : List Char) (k : Nat) (cache : CostCache) :
    (processLogFile env path modNow sizeNow content (some k) cache).FileState
      = cache.FileState := by
  cases h : lookupTable cache.FileState path with
  | none =>
    rw [processLogFile_noState env path modNow sizeNow content (some k) cache h, doScan_err]
    exact scanLines_fileState env _ cache
  | some st =>
    by_cases hm : st.ModTime = modNow ∧ st.Size = sizeNow
    · rw [processLogFile_skip env path modNow sizeNow content (some k) cache st h hm.1 hm.2]
    · rcases lt_trichotomy st.Size sizeNow with hs | hs | hs
      · rw [processLogFile_resume env path modNow sizeNow content (some k) cache st h hs,
          doScan_err]
        exact scanLines_fileState env _ cache
      · have hmm : st.ModTime ≠ modNow := fun hmt => hm ⟨hmt, hs⟩
        rw [processLogFile_rewritten env path modNow sizeNow content (some k) cache st h hs hmm,
          doScan_err]
        exact scanLines_fileState env _ cache
      · rw [processLogFile_shrank env path modNow sizeNow content (some k) cache st h hs,
          doScan_err]
        exact scanLines_fileState env _ cache

/-- C10: a scan that completes without a read error records, for the
scanned path, exactly the observed mod-time and size together with a byte
offset equal to the resume offset plus every byte consumed from it
(including a final line without trailing newline); consequently whenever
the delivered content length equals the stat-reported size, the stored
state satisfies Offset = Size, so a later resume of a grown file starts
at the previous end of file. -/
theorem C10_offset_invariant (env : Env) (path : String) (modNow sizeNow : Int)
    (content : List Char) (off : Nat) (cache : CostCache) :
    lookupTable (doScan env path modNow sizeNow content none off cache).FileState path
      = some { ModTime := modNow, Size := sizeNow,
               Offset := (off : Int) + (((content.drop off).length : Nat) : Int) }
    ∧ ((content.length : Int) = sizeNow → off ≤ content.length →
        lookupTable (doScan env path modNow sizeNow content none off cache).FileState path
          = some { ModTime := modNow, Size := sizeNow, Offset := sizeNow }) := by
  have h1 : lookupTable (doScan env path modNow sizeNow content none off cache).FileState path
      = some { ModTime := modNow, Size := sizeNow,
               Offset := (off : Int) + (((content.drop off).length : Nat) : Int) } := by
    rw [doScan_complete]
    exact lookupTable_insertTable_self path _ _
  refine ⟨h1, fun hlen hoff => ?_⟩
  rw [h1]
  have harith : (off : Int) + (((content.drop off).length : Nat) : Int) = sizeNow := by
    rw [List.length_drop]
    omega
  rw [harith]

/-- Witness for C10: scanning 5 bytes (two lines, the second without a
trailing newline) from offset 0 of a file whose stat size is 5 stores
Offset = Size = 5. -/
theorem C10_witness :
    (((['a', '\n', 'b', 'c', 'd'] : List Char).length : Int) = 5 ∧ 0 ≤ ('a' :: ['\n', 'b', 'c', 'd']).length)
    ∧ lookupTable
        (doScan testEnv "p" 9 5 ['a', '\n', 'b', 'c', 'd'] none 0 emptyCache).FileState "p"
      = some { ModTime := 9, Size := 5, Offset := 5 } :=
  ⟨⟨by decide, by decide⟩,
    (C10_offset_invariant testEnv "p" 9 5 ['a', '\n', 'b', 'c', 'd'] 0 emptyCache).2
      (by decide) (by decide)⟩

theorem processLogFile_fresh_complete (env : Env) (path : String) (modNow : Int)
    (content : List Char) :
    processLogFile env path modNow ((content.length : Nat) : Int) content none emptyCache
      = { scanLines env (splitLines content) emptyCache with
          FileState := insertTable path
            { ModTime := modNow, Size := (content.length : Int),
              Offset := (content.length : Int) }
            (scanLines env (splitLines content) emptyCache).FileState } := by
  rw [processLogFile_noState env path modNow _ content none emptyCache rfl, doScan_complete]
  simp

/-- C2 counterexample: a file whose first 60 bytes are the beginning of a
single JSON line (no newline yet) is fully scanned, its offset 60 saved;
the line is then completed (remaining bytes plus a newline appended).
Resuming from offset 60 sees only the tail fragment, which is malformed
on its own, so the incremental day totals stay empty, while scanning the
whole grown file from scratch decodes the complete line and books $3 —
the two disagree, so resume-equals-fresh fails when the first scan ended
inside an unterminated line. -/
theorem C2_counterexample :
    (processLogFile envCx "p" 2
        (((cxLine.toList.take 60 ++ (cxLine.toList.drop 60 ++ ['\n'])).length : Nat) : Int)
        (cxLine.toList.take 60 ++ (cxLine.toList.drop 60 ++ ['\n'])) none
        (processLogFile envCx "p" 1 (((cxLine.toList.take 60).length : Nat) : Int)
          (cxLine.toList.take 60) none emptyCache)).DayCosts
      ≠ (processLogFile envCx "p" 2
          (((cxLine.toList.take 60 ++ (cxLine.toList.drop 60 ++ ['\n'])).length : Nat) : Int)
          (cxLine.toList.take 60 ++ (cxLine.toList.drop 60 ++ ['\n'])) none
          emptyCache).DayCosts := by
  set_option maxRecDepth 8000 in decide

/-- C2 (amended): for every log file fully scanned at size S whose scan
state was saved, and then grown to size S' > S by appending bytes,
provided the S-byte prefix ended at a line boundary (it is empty or ends
with a newline — a final unterminated line is consumed into the saved
offset and its completion would otherwise be misread), rescanning with
the saved state scans exactly the appended byte region, and the
resulting day-bucket totals (and dedup set) equal those of scanning the
entire S'-byte file from offset 0 with a fresh empty cache. -/
theorem C2_resume_equals_fresh (env : Env) (path : String) (mod1 mod2 : Int)
    (content1 appended : List Char)
    (hnl : content1 = [] ∨ content1.getLast? = some '\n')
    (hgrow : appended ≠ []) :
    let size1 : Int := (content1.length : Int)
    let content2 : List Char := content1 ++ appended
    let size2 : Int := (content2.length : Int)
    let c1 := processLogFile env path mod1 size1 content1 none emptyCache
    let c2 := processLogFile env path mod2 size2 content2 none c1
    let fresh := processLogFile env path mod2 size2 content2 none emptyCache
    c2 = { scanLines env (splitLines appended) c1 with
           FileState := insertTable path { ModTime := mod2, Size := size2, Offset := size2 }
             (scanLines env (splitLines appended) c1).FileState }
    ∧ c2.DayCosts = fresh.DayCosts
    ∧ c2.ProcessedMessages = fresh.ProcessedMessages := by
  intro size1 content2 size2 c1 c2 fresh
  have hlen2 : content2.length = content1.length + appended.length := by
    show (content1 ++ appended).length = _
    exact List.length_append content1 appended
  have hpos : 0 < appended.length := List.length_pos.mpr hgrow
  have hsz : size1 < size2 := by
    show ((content1.length : Nat) : Int) < ((content2.length : Nat) : Int)
    omega
  have hc1 : c1 = { scanLines env (splitLines content1) emptyCache with
      FileState := insertTable path { ModTime := mod1, Size := size1, Offset := size1 }
        (scanLines env (splitLines content1) emptyCache).FileState } :=
    processLogFile_fresh_complete env path mod1 content1
  have hlook : lookupTable c1.FileState path
      = some { ModTime := mod1, Size := size1, Offset := size1 } := by
    rw [hc1]
    exact lookupTable_insertTable_self path _ _
  have hc2 : c2 = doScan env path mod2 size2 content2 none
      (FileProcessState.Offset { ModTime := mod1, Size := size1, Offset := size1 }).toNat c1 :=
    processLogFile_resume env path mod2 size2 content2 none c1 _ hlook hsz
  have htn : (FileProcessState.Offset
      { ModTime := mod1, Size := size1, Offset := size1 }).toNat = content1.length := by
    show ((content1.length : Nat) : Int).toNat = content1.length
    omega
  have hdrop : content2.drop content1.length = appended := by
    show (content1 ++ appended).drop content1.length = appended
    simp
  have hoff : (content1.length : Int) + ((content2.drop content1.length).length : Int)
      = size2 := by
    rw [hdrop]
    show _ = ((content2.length : Nat) : Int)
    omega
  have hc2' : c2 = { scanLines env (splitLines appended) c1 with
      FileState := insertTable path { ModTime := mod2, Size := size2, Offset := size2 }
        (scanLines env (splitLines appended) c1).FileState } := by
    rw [hc2, doScan_complete, htn, hoff, hdrop]
  have hfresh : fresh = { scanLines env (splitLines content2) emptyCache with
      FileState := insertTable path { ModTime := mod2, Size := size2, Offset := size2 }
        (scanLines env (splitLines content2) emptyCache).FileState } :=
    processLogFile_fresh_complete env path mod2 content2
  have hscan2 : scanLines env (splitLines content2) emptyCache
      = scanLines env (splitLines appended) (scanLines env (splitLines content1) emptyCache) := by
    have : splitLines content2 = splitLines content1 ++ splitLines appended := by
      show splitLines (content1 ++ appended) = _
      exact splitLines_append content1 appended hnl
    rw [this, scanLines_append]
  refine ⟨hc2', ?_, ?_⟩
  · rw [hc2', hfresh]
    show (scanLines env (splitLines appended) c1).DayCosts
      = (scanLines env (splitLines content2) emptyCache).DayCosts
    rw [hscan2, hc1, scanLines_fileState_frame]
  · rw [hc2', hfresh]
    show (scanLines env (splitLines appended) c1).ProcessedMessages
      = (scanLines env (splitLines content2) emptyCache).ProcessedMessages
    rw [hscan2, hc1, scanLines_fileState_frame]

/-- Witness for C2: the amended theorem on the two-byte newline-terminated
file "a\n" grown by the byte "b". -/
theorem C2_witness :
    ((['a', '\n'] : List Char) = [] ∨ (['a', '\n'] : List Char).getLast? = some '\n')
    ∧ (['b'] : List Char) ≠ []
    ∧ (let size1 : Int := (((['a', '\n'] : List Char).length : Nat) : Int)
      let content2 : List Char := ['a', '\n'] ++ ['b']
      let size2 : Int := ((content2.length : Nat) : Int)
      let c1 := processLogFile testEnv "p" 1 size1 ['a', '\n'] none emptyCache
      let c2 := processLogFile testEnv "p" 2 size2 content2 none c1
      let fresh := processLogFile testEnv "p" 2 size2 content2 none emptyCache
      c2 = { scanLines testEnv (splitLines ['b']) c1 with
             FileState := insertTable "p" { ModTime := 2, Size := size2, Offset := size2 }
               (scanLines testEnv (splitLines ['b']) c1).FileState }
      ∧ c2.DayCosts = fresh.DayCosts
      ∧ c2.ProcessedMessages = fresh.ProcessedMessages) :=
  ⟨by decide, by decide,
    C2_resume_equals_fresh testEnv "p" 1 2 ['a', '\n'] ['b'] (by decide) (by decide)⟩

/-! Lemmas for the fixed-mode aggregator. -/

theorem sumWhere_nil (p : String → Bool) : sumWhere p [] = 0 := rfl

theorem sumWhere_cons (p : String → Bool) (k : String) (v : ℚ) (rest : List (String × ℚ)) :
    sumWhere p ((k, v) :: rest) = (if p k then v else 0) + sumWhere p rest := by
  by_cases h : p k <;> simp [sumWhere, h]

theorem aggregateFixed_daily_sum (today weekStart monthStart : String) :
    ∀ (l : List (String × ℚ)) (acc : TokenStats),
      (List.foldl (fun stats dc =>
        let stats1 :=
          if strGe dc.1 monthStart then { stats with MonthlyCost := stats.MonthlyCost + dc.2 }
          else stats
        let stats2 :=
          if strGe dc.1 weekStart then { stats1 with WeeklyCost := stats1.WeeklyCost + dc.2 }
          else stats1
        if dc.1 = today then { stats2 with DailyCost := stats2.DailyCost + dc.2 } else stats2)
        acc l).DailyCost
      = acc.DailyCost + sumWhere (fun d => d = today) l := by
  intro l
  induction l with
  | nil => intro acc; simp [sumWhere_nil]
  | cons hd tl ih =>
    intro acc
    obtain ⟨k, v⟩ := hd
    rw [List.foldl_cons, ih]
    by_cases h3 : k = today
    · subst h3
      by_cases h1 : strGe k monthStart <;> by_cases h2 : strGe k weekStart <;>
        simp [h1, h2, sumWhere_cons] <;> ring
    · by_cases h1 : strGe k monthStart <;> by_cases h2 : strGe k weekStart <;>
        simp [h1, h2, h3, sumWhere_cons]

theorem aggregateFixed_weekly_sum (today weekStart monthStart : String) :
    ∀ (l : List (String × ℚ)) (acc : TokenStats),
      (List.foldl (fun stats dc =>
        let stats1 :=
          if strGe dc.1 monthStart then { stats with MonthlyCost := stats.MonthlyCost + dc.2 }
          else stats
        let stats2 :=
          if strGe dc.1 weekStart then { stats1 with WeeklyCost := stats1.WeeklyCost + dc.2 }
          else stats1
        if dc.1 = today then { stats2 with DailyCost := stats2.DailyCost + dc.2 } else stats2)
        acc l).WeeklyCost
      = acc.WeeklyCost + sumWhere (fun d => strGe d weekStart) l := by
  intro l
  induction l with
  | nil => intro acc; simp [sumWhere_nil]
  | cons hd tl ih =>
    intro acc
    obtain ⟨k, v⟩ := hd
    rw [List.foldl_cons, ih]
    by_cases h3 : k = today
    · subst h3
      by_cases h1 : strGe k monthStart <;> by_cases h2 : strGe k weekStart <;>
        simp [h1, h2, sumWhere_cons] <;> ring
    · by_cases h1 : strGe k monthStart <;> by_cases h2 : strGe k weekStart <;>
        simp [h1, h2, h3, sumWhere_cons] <;> ring

theorem aggregateFixed_monthly_sum (today weekStart monthStart : String) :
    ∀ (l : List (String × ℚ)) (acc : TokenStats),
      (List.foldl (fun stats dc =>
        let stats1 :=
          if strGe dc.1 monthStart then { stats with MonthlyCost := stats.MonthlyCost + dc.2 }
          else stats
        let stats2 :=
          if strGe dc.1 weekStart then { stats1 with WeeklyCost := stats1.WeeklyCost + dc.2 }
          else stats1
        if dc.1 = today then { stats2 with DailyCost := stats2.DailyCost + dc.2 } else stats2)
        acc l).MonthlyCost
      = acc.MonthlyCost + sumWhere (fun d => strGe d monthStart) l := by
  intro l
  induction l with
  | nil => intro acc; simp [sumWhere_nil]
  | cons hd tl ih =>
    intro acc
    obtain ⟨k, v⟩ := hd
    rw [List.foldl_cons, ih]
    by_cases h3 : k = today
    · subst h3
      by_cases h1 : strGe k monthStart <;> by_cases h2 : strGe k weekStart <;>
        simp [h1, h2, sumWhere_cons] <;> ring
    · by_cases h1 : strGe k monthStart <;> by_cases h2 : strGe k weekStart <;>
        simp [h1, h2, h3, sumWhere_cons] <;> ring

/-- C8 counterexample: `aggregateFixed` puts no upper bound at today on
the weekly (or monthly) window — a bucket dated 2025-12-25, after
`now` = 2025-11-29, is counted into the weekly sum because the code only
compares `day >= weekStart`, while the claim's "from Monday through
today" window excludes it. -/
theorem C8_counterexample :
    (aggregateFixed { DayCosts := [("2025-12-25", 5)], FileState := [], ProcessedMessages := [] }
        (daysFromCivil 2025 11 29)).WeeklyCost
      ≠ specWeeklyThroughToday
          { DayCosts := [("2025-12-25", 5)], FileState := [], ProcessedMessages := [] }
          (daysFromCivil 2025 11 29) := by
  set_option maxRecDepth 8000 in decide

/-- C8 (amended): in fixed aggregation mode, daily is the bucket value
for today's date, weekly the sum of buckets dated on or after the most
recent Monday, and monthly the sum of buckets dated on or after the
first of the current month — with no upper bound at today (dates after
today, which the claim implicitly excluded, are also summed).  The week
start used really is the most recent Monday (Go weekday 1) within the
previous six days, and the claim's concrete instance holds: buckets of 3
on 2025-11-27/28/29 with now = 2025-11-29 give daily 3, weekly 9,
monthly 9. -/
theorem C8_fixed_windows (cache : CostCache) (now : Int) :
    ((aggregateFixed cache now).DailyCost
        = sumWhere (fun d => d = formatDay now) cache.DayCosts
      ∧ (aggregateFixed cache now).WeeklyCost
        = sumWhere (fun d => strGe d (formatDay (mondayOf now))) cache.DayCosts
      ∧ (aggregateFixed cache now).MonthlyCost
        = sumWhere (fun d => strGe d (formatCivil (civilFromDays now).1 (civilFromDays now).2.1 1))
            cache.DayCosts)
    ∧ (goWeekday (mondayOf now) = 1 ∧ mondayOf now ≤ now ∧ now - 6 ≤ mondayOf now)
    ∧ aggregateFixed
        { DayCosts := [("2025-11-27", 3), ("2025-11-28", 3), ("2025-11-29", 3)],
          FileState := [], ProcessedMessages := [] } (daysFromCivil 2025 11 29)
      = { DailyCost := 3, WeeklyCost := 9, MonthlyCost := 9 } := by
  refine ⟨⟨?_, ?_, ?_⟩, ⟨?_, ?_, ?_⟩, ?_⟩
  · exact (aggregateFixed_daily_sum (formatDay now)
      (formatDay (mondayOf now))
      (formatCivil (civilFromDays now).1 (civilFromDays now).2.1 1) cache.DayCosts
      { DailyCost := 0, WeeklyCost := 0, MonthlyCost := 0 }).trans (by simp)
  · exact (aggregateFixed_weekly_sum (formatDay now)
      (formatDay (mondayOf now))
      (formatCivil (civilFromDays now).1 (civilFromDays now).2.1 1) cache.DayCosts
      { DailyCost := 0, WeeklyCost := 0, MonthlyCost := 0 }).trans (by simp)
  · exact (aggregateFixed_monthly_sum (formatDay now)
      (formatDay (mondayOf now))
      (formatCivil (civilFromDays now).1 (civilFromDays now).2.1 1) cache.DayCosts
      { DailyCost := 0, WeeklyCost := 0, MonthlyCost := 0 }).trans (by simp)
  · by_cases h : (now + 4) % 7 = 0 <;> simp [mondayOf, goWeekday, h] <;> omega
  · by_cases h : (now + 4) % 7 = 0 <;> simp [mondayOf, goWeekday, h] <;> omega
  · by_cases h : (now + 4) % 7 = 0 <;> simp [mondayOf, goWeekday, h] <;> omega
  · set_option maxRecDepth 8000 in decide

end Cost
